import Mathlib

/-!
Shallow embedding of the `t9d` repository (a numpad T9 predictive-text
composer written in Python) and proofs about it.

Covered source files:
* `src/t9d/engine.py`  — character tables, `word_to_digits`, the stateful
  `T9Engine` (digit sequence, candidate ranking, personal dictionaries);
* `src/t9d/app.py`     — key-to-action mapping and the action handler;
* `src/t9d/config.py`  — configuration resolution and merging;
* `src/add_wordlist.py` — the word-list import utility.

File I/O is modelled by passing the file contents (lists of lines, or an
abstract file-system function) as explicit arguments; printing is dropped.
Python `dict`s (insertion-ordered, unique keys) are modelled as association
lists with update-in-place / append-if-absent semantics.
-/

/-! ### Python string primitives (restricted to the character ranges the
program actually handles: ASCII plus the Latin-1 diacritics of the tables) -/

/-- The whitespace characters stripped by Python default `str.strip()`
(ASCII subset; the program only feeds it config/wordlist text). -/
def pyWhitespace (c : Char) : Bool :=
  c == ' ' || c == '\t' || c == '\n' || c == '\r' || c == '\x0b' || c == '\x0c'

/-- Python `str.strip()`: drop leading and trailing whitespace. -/
def pyStrip (s : String) : String :=
  String.mk (((s.toList.dropWhile pyWhitespace).reverse.dropWhile pyWhitespace).reverse)

/-- Uppercase/lowercase pairs for the Latin-1 diacritics appearing in the
program's tables (Python `str.lower()` handles them; ASCII `A`–`Z` is
handled separately). -/
def UPPER_LOWER : List (Char × Char) :=
  [('Å', 'å'), ('Ä', 'ä'), ('Ö', 'ö'), ('Ü', 'ü'),
   ('É', 'é'), ('È', 'è'), ('Ê', 'ê'), ('Ë', 'ë'),
   ('À', 'à'), ('Â', 'â'), ('Î', 'î'), ('Ï', 'ï'),
   ('Ô', 'ô'), ('Œ', 'œ'), ('Ù', 'ù'), ('Û', 'û'),
   ('Ç', 'ç'), ('Ñ', 'ñ'), ('Æ', 'æ'), ('Ø', 'ø')]

/-- Python `str.lower()` on one character, restricted to ASCII letters and
the diacritics above; every other character is left unchanged. -/
def pyLowerChar (c : Char) : Char :=
  if 'A' ≤ c ∧ c ≤ 'Z' then Char.ofNat (c.toNat + 32)
  else (UPPER_LOWER.lookup c).getD c

/-- Python `str.lower()` (character-wise). -/
def pyLower (s : String) : String :=
  String.mk (s.toList.map pyLowerChar)

/-- Python `s.startswith(c)` for a one-character pattern `c`. -/
def startsWithChar (s : String) (c : Char) : Bool :=
  match s.toList with
  | [] => false
  | x :: _ => x == c

/-- Python `<=` on strings: lexicographic comparison by code point. -/
def charListLe : List Char → List Char → Bool
  | [], _ => true
  | _ :: _, [] => false
  | a :: as, b :: bs =>
    if a < b then true
    else if a = b then charListLe as bs
    else false

/-- Python string `a <= b`. -/
def pyLe (a b : String) : Prop := charListLe a.toList b.toList = true

instance : DecidableRel pyLe := fun a b => by unfold pyLe; infer_instance

theorem charListLe_cons (a b : Char) (as bs : List Char) :
    charListLe (a :: as) (b :: bs) = true ↔
      a < b ∨ (a = b ∧ charListLe as bs = true) := by
  by_cases h1 : a < b
  · simp [charListLe, h1]
  · by_cases h2 : a = b
    · simp [charListLe, h1, h2]
    · simp [charListLe, h1, h2]

theorem charListLe_total : ∀ as bs, charListLe as bs = true ∨ charListLe bs as = true
  | [], _ => Or.inl rfl
  | _ :: _, [] => Or.inr rfl
  | a :: as, b :: bs => by
    rw [charListLe_cons, charListLe_cons]
    rcases lt_trichotomy a b with h | h | h
    · exact Or.inl (Or.inl h)
    · rcases charListLe_total as bs with h' | h'
      · exact Or.inl (Or.inr ⟨h, h'⟩)
      · exact Or.inr (Or.inr ⟨h.symm, h'⟩)
    · exact Or.inr (Or.inl h)

theorem charListLe_trans :
    ∀ as bs cs, charListLe as bs = true → charListLe bs cs = true →
      charListLe as cs = true
  | [], _, _, _, _ => rfl
  | _ :: _, [], _, h, _ => by simp [charListLe] at h
  | _ :: _, _ :: _, [], _, h => by simp [charListLe] at h
  | a :: as, b :: bs, c :: cs, h1, h2 => by
    rw [charListLe_cons] at h1 h2 ⊢
    rcases h1 with h1 | ⟨h1, h1'⟩ <;> rcases h2 with h2 | ⟨h2, h2'⟩
    · exact Or.inl (h1.trans h2)
    · exact Or.inl (h2 ▸ h1)
    · exact Or.inl (h1 ▸ h2)
    · exact Or.inr ⟨h1.trans h2, charListLe_trans as bs cs h1' h2'⟩

theorem charListLe_antisymm :
    ∀ as bs, charListLe as bs = true → charListLe bs as = true → as = bs
  | [], [], _, _ => rfl
  | [], _ :: _, _, h => by simp [charListLe] at h
  | _ :: _, [], h, _ => by simp [charListLe] at h
  | a :: as, b :: bs, h1, h2 => by
    rw [charListLe_cons] at h1 h2
    rcases h1 with h1 | ⟨h1, h1'⟩ <;> rcases h2 with h2 | ⟨h2, h2'⟩
    · exact absurd (h1.trans h2) (lt_irrefl a)
    · exact absurd h1 (h2 ▸ lt_irrefl a)
    · exact absurd h2 (h1 ▸ lt_irrefl a)
    · rw [h1, charListLe_antisymm as bs h1' h2']

instance : IsTotal String pyLe := ⟨fun a b => charListLe_total a.toList b.toList⟩

instance : IsTrans String pyLe :=
  ⟨fun _ _ _ h1 h2 => charListLe_trans _ _ _ h1 h2⟩

instance : IsAntisymm String pyLe :=
  ⟨fun a b h1 h2 => String.ext (charListLe_antisymm a.toList b.toList h1 h2)⟩

/-! ### Association-list model of Python `dict` -/

/-- Python `d[k] = v`: replace in place if the key exists, else append
(insertion order preserved). -/
def dictSet {β : Type} (d : List (String × β)) (k : String) (v : β) :
    List (String × β) :=
  if d.any (fun p => p.1 = k) then
    d.map (fun p => if p.1 = k then (k, v) else p)
  else d ++ [(k, v)]

/-- Python `d.get(k, v0)`. -/
def dictGetD {β : Type} (d : List (String × β)) (k : String) (v0 : β) : β :=
  ((d.lookup k).getD v0)

namespace Engine

/-! ### `src/t9d/engine.py` — character tables -/

/-- `T9_MAP` of `engine.py`: digit → letter group (digit 7 has no group —
reserved for punctuation). -/
def T9_MAP : List (Char × String) :=
  [('1', "pqrs"), ('2', "tuv"), ('3', "wxyz"), ('4', "ghi"),
   ('5', "jkl"), ('6', "mno"), ('8', "abc"), ('9', "def")]

/-- `DIACRITIC_MAP` of `engine.py`: diacritic → digit. -/
def DIACRITIC_MAP : List (Char × Char) :=
  [('å', '2'), ('ä', '2'), ('ö', '6'),
   ('ü', '8'), ('ß', '7'),
   ('é', '3'), ('è', '3'), ('ê', '3'), ('ë', '3'),
   ('à', '2'), ('â', '2'),
   ('î', '4'), ('ï', '4'),
   ('ô', '6'), ('œ', '6'),
   ('ù', '8'), ('û', '8'),
   ('ç', '2'),
   ('ñ', '6'),
   ('æ', '2'), ('ø', '6')]

/-- `_build_char_to_digit()`: expand each letter group, then overlay the
diacritic entries (key sets are disjoint, so first-match lookup on the
concatenation models the Python dict exactly). -/
def _build_char_to_digit : List (Char × Char) :=
  (T9_MAP.foldl (fun m dc => m ++ dc.2.toList.map (fun ch => (ch, dc.1))) [])
    ++ DIACRITIC_MAP

/-- `CHAR_TO_DIGIT` module constant. -/
def CHAR_TO_DIGIT : List (Char × Char) := _build_char_to_digit

/-- `CHAR_TO_DIGIT.get(ch)`. -/
def charDigit (ch : Char) : Option Char := CHAR_TO_DIGIT.lookup ch

/-- The loop body of `word_to_digits`: map every character, `none` as soon
as one character is unmappable. -/
def digitsOfChars : List Char → Option (List Char)
  | [] => some []
  | c :: cs =>
    match charDigit c with
    | none => none
    | some d => (digitsOfChars cs).map (fun ds => d :: ds)

/-- `T9Engine.word_to_digits`: lowercase, map every character through
`CHAR_TO_DIGIT`; `""` if any character is unmappable. -/
def word_to_digits (word : String) : String :=
  match digitsOfChars (pyLower word).toList with
  | none => ""
  | some ds => String.mk ds

/-! ### `T9Engine` state.

Construction-time file loading (`_load_all_wordlists`, `_load_all_user_dicts`)
is modelled by letting the constructor take the resulting `lookup` index and
`user_dicts` as data; `_save_user_dict` (disk write of `user_dicts[lang]`)
is dropped — `user_dicts` itself is the persisted content. The `config`
is reduced to the one field the pure operations read: `languages`. -/

structure T9Engine where
  sequence : List Char
  candidates : List String
  candidate_index : Nat
  confirmed_words : List String
  lookup : List (String × List String)
  user_dicts : List (String × List (String × Nat))
  languages : List String
  deriving DecidableEq

/-- Fresh engine state after `__init__` (the loaded index and personal
dictionaries are parameters). -/
def initEngine (lookup : List (String × List String))
    (user_dicts : List (String × List (String × Nat)))
    (languages : List String) : T9Engine :=
  { sequence := [], candidates := [], candidate_index := 0,
    confirmed_words := [], lookup := lookup, user_dicts := user_dicts,
    languages := languages }

/-- `T9Engine._user_freq`: the word's count summed over every loaded
personal dictionary. -/
def _user_freq (e : T9Engine) (word : String) : Nat :=
  (e.user_dicts.map (fun d => dictGetD d.2 word 0)).sum

/-- The sort key order of `_refresh_candidates`: Python
`sorted(raw, key = fun w => (-self._user_freq w, w))`, i.e. `a` precedes
`b` iff `a` has strictly higher frequency, or equal frequency and `a ≤ b`
lexicographically. -/
def candLe (freq : String → Nat) (a b : String) : Prop :=
  freq b < freq a ∨ (freq a = freq b ∧ pyLe a b)

instance (freq : String → Nat) : DecidableRel (candLe freq) := fun a b => by
  unfold candLe; infer_instance

instance (freq : String → Nat) : IsTotal String (candLe freq) where
  total a b := by
    rcases lt_trichotomy (freq a) (freq b) with h | h | h
    · exact Or.inr (Or.inl h)
    · rcases charListLe_total a.toList b.toList with hab | hab
      · exact Or.inl (Or.inr ⟨h, hab⟩)
      · exact Or.inr (Or.inr ⟨h.symm, hab⟩)
    · exact Or.inl (Or.inl h)

instance (freq : String → Nat) : IsTrans String (candLe freq) where
  trans a b c hab hbc := by
    rcases hab with h1 | ⟨h1, h1'⟩ <;> rcases hbc with h2 | ⟨h2, h2'⟩
    · exact Or.inl (h2.trans h1)
    · exact Or.inl (h2 ▸ h1)
    · exact Or.inl (h1 ▸ h2)
    · exact Or.inr ⟨h1.trans h2, charListLe_trans _ _ _ h1' h2'⟩

instance (freq : String → Nat) : IsAntisymm String (candLe freq) where
  antisymm a b hab hba := by
    rcases hab with h1 | ⟨h1, h1'⟩ <;> rcases hba with h2 | ⟨h2, h2'⟩
    · exact absurd (h1.trans h2) (lt_irrefl _)
    · exact absurd h1 (h2 ▸ lt_irrefl _)
    · exact absurd h2 (h1 ▸ lt_irrefl _)
    · have := charListLe_antisymm _ _ h1' h2'
      exact String.ext (by simpa [String.toList] using this)

/-- `T9Engine._refresh_candidates`: look the joined sequence up in the
index and sort by `(-freq, word)`. Python's `sorted` is modelled by
`List.insertionSort`: the key order is total, transitive and antisymmetric
(ties only between equal strings), so the sorted permutation is unique and
any correct sort produces it. -/
def _refresh_candidates (e : T9Engine) : T9Engine :=
  let key := String.mk e.sequence
  let raw := dictGetD e.lookup key []
  { e with candidates := raw.insertionSort (candLe (_user_freq e)),
           candidate_index := 0 }

/-- `T9Engine.push_digit`. -/
def push_digit (e : T9Engine) (digit : Char) : T9Engine :=
  _refresh_candidates { e with sequence := e.sequence ++ [digit] }

/-- `T9Engine.pop_digit` (its `bool` return value is
`(pop_digit e).sequence ≠ []`, which callers re-derive via `has_input`). -/
def pop_digit (e : T9Engine) : T9Engine :=
  if e.sequence = [] then e
  else _refresh_candidates { e with sequence := e.sequence.dropLast }

/-- `T9Engine.reset`. -/
def reset (e : T9Engine) : T9Engine :=
  { e with sequence := [], candidates := [], candidate_index := 0 }

/-- `T9Engine.cycle_next`. -/
def cycle_next (e : T9Engine) : T9Engine :=
  if e.candidates = [] then e
  else { e with candidate_index := (e.candidate_index + 1) % e.candidates.length }

/-- `T9Engine.cycle_prev`: Python `(i - 1) % n` on a non-negative `i`,
written as `(i + n - 1) % n` (equal residue, both in `[0, n)`). -/
def cycle_prev (e : T9Engine) : T9Engine :=
  if e.candidates = [] then e
  else { e with candidate_index :=
          (e.candidate_index + e.candidates.length - 1) % e.candidates.length }

/-- In `_index_words`, the `prepend` relocation of an already-present word:
`bucket.insert(0, bucket.pop(idx))` at the first case-insensitive match. -/
def moveToFront (bucket : List String) (wl : String) : List String :=
  match bucket.findIdx? (fun w => pyLower w = wl) with
  | none => bucket
  | some idx => (bucket.getD idx "") :: bucket.eraseIdx idx

/-- `T9Engine._index_words` for a single word: skip unmappable words;
dedup case-insensitively inside the bucket; prepend or append. -/
def indexWord (lookup : List (String × List String)) (prepend : Bool)
    (word : String) : List (String × List String) :=
  let key := word_to_digits word
  if key = "" then lookup
  else
    let bucket := dictGetD lookup key []
    let wl := pyLower word
    if wl ∈ bucket.map pyLower then
      if prepend then dictSet lookup key (moveToFront bucket wl) else lookup
    else
      dictSet lookup key (if prepend then wl :: bucket else bucket ++ [wl])

/-- `T9Engine._index_words` over a word list. -/
def indexWords (lookup : List (String × List String)) (prepend : Bool)
    (words : List String) : List (String × List String) :=
  words.foldl (fun lk w => indexWord lk prepend w) lookup

/-- The default language used by `learn_word` when none is given:
`self.config.get("languages", ["en"])[0]`. -/
def defaultLang (e : T9Engine) : String := e.languages.headD "en"

/-- `T9Engine.learn_word`: strip+lowercase; no-op on an empty result;
otherwise increment the language's personal count (creating at 1) and
re-index the word with prepend semantics. The synchronous disk write of
the dictionary is the identity on this state model. -/
def learn_word (e : T9Engine) (word : String) (lang? : Option String) :
    T9Engine :=
  let w := pyLower (pyStrip word)
  if w = "" then e
  else
    let lang := lang?.getD (defaultLang e)
    let d := dictGetD e.user_dicts lang []
    let d' := dictSet d w (dictGetD d w 0 + 1)
    { e with user_dicts := dictSet e.user_dicts lang d',
             lookup := indexWords e.lookup true [w] }

/-- `T9Engine.bump_word`. -/
def bump_word (e : T9Engine) (word : String) : T9Engine :=
  learn_word e word none

/-- `T9Engine.current_word`: the selected candidate, or the fallback made
of the first letter of each digit's letter group (`?` for a digit with no
group). -/
def current_word (e : T9Engine) : String :=
  if e.candidates ≠ [] then e.candidates.getD e.candidate_index ""
  else String.mk (e.sequence.map
    (fun d => (((T9_MAP.lookup d).getD "?").toList.headD '?')))

/-- `T9Engine.has_input`. -/
def has_input (e : T9Engine) : Bool := e.sequence ≠ []

/-- `T9Engine.confirm`: returns the confirmed word together with the
successor state. -/
def confirm (e : T9Engine) : String × T9Engine :=
  let word := current_word e
  let e1 := bump_word e word
  (word, reset { e1 with confirmed_words := e1.confirmed_words ++ [word] })

/-- The engine's public mutating operations, for closure/invariant
statements. -/
inductive EngineOp
  | push (d : Char)
  | pop
  | resetE
  | next
  | prev
  | confirmE
  | learn (word : String) (lang? : Option String)
  | bump (word : String)
  deriving DecidableEq

/-- Apply one operation. -/
def applyOp (e : T9Engine) : EngineOp → T9Engine
  | .push d => push_digit e d
  | .pop => pop_digit e
  | .resetE => reset e
  | .next => cycle_next e
  | .prev => cycle_prev e
  | .confirmE => (confirm e).2
  | .learn w l => learn_word e w l
  | .bump w => bump_word e w

/-- Apply a sequence of operations in order. -/
def applyOps (e : T9Engine) (ops : List EngineOp) : T9Engine :=
  ops.foldl applyOp e

/-- The candidate-index invariant: a valid index whenever candidates are
non-empty. -/
def idxInv (e : T9Engine) : Prop :=
  e.candidates ≠ [] → e.candidate_index < e.candidates.length

/-- Observer: the personal-dictionary count of `word` for `lang`
(`self.user_dicts[lang].get(word, 0)`, 0 when the language is absent). -/
def userCount (e : T9Engine) (lang word : String) : Nat :=
  dictGetD (dictGetD e.user_dicts lang []) word 0

end Engine

namespace App

/-! ### `src/t9d/app.py` — key classification and the action handler -/

/-- The pynput `Key` enum members the code mentions, plus `other n`
standing for every remaining named key (F-keys, modifiers, ...). -/
inductive NamedKey
  | num_lock | insert | endK | down | page_down | left | right
  | homeK | up | page_up | delete | esc | enter
  | other (n : Nat)
  deriving DecidableEq

/-- A pynput key event: either a `KeyCode` carrying an optional platform
virtual-key code, or a named `Key`. -/
inductive PKey
  | keyCode (vk : Option Int)
  | named (k : NamedKey)
  deriving DecidableEq

/-- The `vk_map` literal of `T9App._key_to_action`. -/
def vk_map : List (Int × String) :=
  [(96, "0"), (97, "1"), (98, "2"), (99, "3"), (100, "4"),
   (101, "5"), (102, "6"), (103, "7"), (104, "8"), (105, "9"),
   (106, "backspace"), (107, "next"), (109, "prev"),
   (110, "punct_confirm"), (111, "delete_word"), (13, "confirm")]

/-- The `named` dict literal of `T9App._key_to_action` (the Num-Lock-OFF
navigation-key fallback). -/
def named_map : List (NamedKey × String) :=
  [(.insert, "0"), (.endK, "1"), (.down, "2"), (.page_down, "3"),
   (.left, "4"), (.right, "6"), (.homeK, "7"), (.up, "8"),
   (.page_up, "9"), (.delete, "punct_confirm")]

/-- `T9App._key_to_action`: Num-Lock first (ignored); a `KeyCode` goes
through `vk_map` on its virtual-key code; a named key goes through the
fallback dict, then the `esc`/`enter` checks. -/
def key_to_action : PKey → Option String
  | .named .num_lock => none
  | .keyCode vk? =>
    match vk? with
    | none => none
    | some vk => vk_map.lookup vk
  | .named k =>
    match named_map.lookup k with
    | some a => some a
    | none =>
      if k = .esc then some "cancel"
      else if k = .enter then some "confirm"
      else none

/-- One synthetic output emission: `self.kb.type(text)` or
`self.kb.tap(key)`. -/
inductive OutEvent
  | typed (s : String)
  | tappedBackspace
  | tappedSpace
  deriving DecidableEq

/-- Controller state: the engine, the punctuation cursor and list, and the
trace of emitted synthetic output (overlay calls are display-only and
dropped). -/
structure AppState where
  engine : Engine.T9Engine
  punct_index : Nat
  punct_list : List String
  output : List OutEvent
  deriving DecidableEq

/-- Append one output event. -/
def emit (s : AppState) (ev : OutEvent) : AppState :=
  { s with output := s.output ++ [ev] }

/-- `T9App._handle` for digit actions `"1"`–`"9"`. -/
def handleDigit (s : AppState) (d : Char) : AppState :=
  if d = '7' then
    let s :=
      if Engine.has_input s.engine then
        let (w, e') := Engine.confirm s.engine
        emit { s with engine := e' } (.typed w)
      else s
    let punct := s.punct_list.getD (s.punct_index % s.punct_list.length) ""
    emit { s with punct_index := s.punct_index + 1 } (.typed punct)
  else
    { s with engine := Engine.push_digit s.engine d }

/-- `T9App._handle`: the action dispatcher (actions are the strings
produced by `key_to_action`; an unknown action falls through unchanged). -/
def handle (s : AppState) (action : String) : AppState :=
  if action ∈ ["1", "2", "3", "4", "5", "6", "7", "8", "9"] then
    handleDigit s (action.toList.headD '?')
  else if action = "0" then
    if Engine.has_input s.engine then
      let (w, e') := Engine.confirm s.engine
      emit { s with engine := e' } (.typed (w ++ " "))
    else emit s .tappedSpace
  else if action = "next" then
    if Engine.has_input s.engine then
      { s with engine := Engine.cycle_next s.engine }
    else s
  else if action = "prev" then
    if Engine.has_input s.engine then
      { s with engine := Engine.cycle_prev s.engine }
    else s
  else if action = "confirm" then
    if Engine.has_input s.engine then
      let (w, e') := Engine.confirm s.engine
      emit { s with engine := e' } (.typed w)
    else s
  else if action = "punct_confirm" then
    if Engine.has_input s.engine then
      let w := Engine.current_word s.engine
      let e1 := Engine.learn_word s.engine w none
      let e2 := (Engine.confirm e1).2
      emit { s with engine := e2 } (.typed w)
    else emit s (.typed ".")
  else if action = "backspace" then
    if Engine.has_input s.engine then
      { s with engine := Engine.pop_digit s.engine }
    else emit s .tappedBackspace
  else if action = "delete_word" then
    if s.engine.confirmed_words ≠ [] then
      let last := s.engine.confirmed_words.getLastD ""
      { s with
        engine := { s.engine with
                    confirmed_words := s.engine.confirmed_words.dropLast },
        output := s.output ++ List.replicate (last.length + 1) .tappedBackspace }
    else if ¬ Engine.has_input s.engine then emit s .tappedBackspace
    else s
  else if action = "cancel" then
    { s with engine := Engine.reset s.engine }
  else s

/-- Run a list of actions through the handler. -/
def handleAll (s : AppState) (actions : List String) : AppState :=
  actions.foldl handle s

end App

namespace AddW

/-! ### `src/add_wordlist.py` — the word-list import utility.

File reads/writes are modelled on lists of lines; the written destination
file is the returned list of lines. -/

/-- `T9_MAP` of `add_wordlist.py` — the standard telephone-keypad layout
(different digit assignment than the engine's map). -/
def T9_MAP : List (Char × String) :=
  [('2', "abc"), ('3', "def"), ('4', "ghi"), ('5', "jkl"),
   ('6', "mno"), ('7', "pqrs"), ('8', "tuv"), ('9', "wxyz")]

/-- `DIACRITIC_MAP` of `add_wordlist.py`. -/
def DIACRITIC_MAP : List (Char × Char) :=
  [('å', '2'), ('ä', '2'), ('ö', '6'),
   ('ü', '8'), ('ß', '7'),
   ('é', '3'), ('è', '3'), ('ê', '3'), ('ë', '3'),
   ('à', '2'), ('â', '2'),
   ('î', '4'), ('ï', '4'),
   ('ô', '6'), ('œ', '6'),
   ('ù', '8'), ('û', '8'),
   ('ç', '2'), ('ñ', '6'),
   ('æ', '2'), ('ø', '6')]

/-- `VALID_CHARS`: every letter of every group plus every diacritic key
(a Python `set`; only membership is ever used). -/
def VALID_CHARS : List Char :=
  (T9_MAP.foldl (fun acc dc => acc ++ dc.2.toList) []) ++ DIACRITIC_MAP.map Prod.fst

/-- `is_mappable`: all characters of the lowercased word are valid. -/
def is_mappable (word : String) : Bool :=
  (pyLower word).toList.all (fun ch => ch ∈ VALID_CHARS)

/-- `load_source`: strip+lowercase each line, skip blanks and `#`-comments,
keep the mappable words in order (the skipped-count report is dropped). -/
def load_source (lines : List String) : List String :=
  lines.foldl
    (fun ws line =>
      let w := pyLower (pyStrip line)
      if w = "" ∨ startsWithChar w '#' then ws
      else if is_mappable w then ws ++ [w]
      else ws)
    []

/-- The existing-destination words collected under `--append`: non-blank
non-comment strip+lowercased lines (a Python `set`; deduplication happens
in the union below). -/
def existingWords (destLines : List String) : List String :=
  destLines.foldl
    (fun ws line =>
      let w := pyLower (pyStrip line)
      if w ≠ "" ∧ ¬ startsWithChar w '#' then ws ++ [w] else ws)
    []

/-- `sorted(existing | set(new_words))`: the union as a set, sorted
ascending. `dedup` + `insertionSort` produces the unique duplicate-free
ascending list, which is what Python returns. -/
def mergeWords (existing newWords : List String) : List String :=
  ((existing ++ newWords).dedup).insertionSort pyLe

/-- Digit grouping of Python `{n:,}` format, on a reversed digit list. -/
def commaRev : List Char → List Char
  | a :: b :: c :: d :: rest => a :: b :: c :: ',' :: commaRev (d :: rest)
  | l => l

/-- Python `f"{n:,}"` for a natural number. -/
def commaFmt (n : Nat) : String :=
  String.mk ((commaRev (Nat.toDigits 10 n).reverse).reverse)

/-- The header comment block written before the words (as lines; the
trailing `\n\n` of the Python f-string is the empty line). -/
def headerLines (lang : String) (wordCount : Nat) : List String :=
  ["# " ++ lang ++ " word list for Numpad T9",
   "# Imported by add_wordlist.py",
   "# Words: " ++ commaFmt wordCount,
   "# One word per line. Lines starting with # are ignored.",
   ""]

/-- The destination file written by `main` (as lines): header, then one
word per line. `destLines?` is `some` the current destination contents
when the destination file exists, `none` otherwise; `append` is the
`--append` flag. -/
def destFileLines (lang : String) (sourceLines : List String)
    (destLines? : Option (List String)) (append : Bool) : List String :=
  let newWords := load_source sourceLines
  let existing :=
    match destLines?, append with
    | some dest, true => existingWords dest
    | _, _ => []
  let combined := mergeWords existing newWords
  headerLines lang combined.length ++ combined

end AddW

namespace Config

/-! ### `src/t9d/config.py` — configuration resolution and merging.

JSON values are modelled by `JVal`; a configuration document is split into
its top-level keys and the `overlay` sub-object (which the code merges
specially). The file system is an explicit function from path to
`FileState`. -/

/-- A JSON leaf/array value as used by the configuration. -/
inductive JVal
  | str (s : String)
  | num (q : ℚ)
  | strArr (l : List String)
  deriving DecidableEq

/-- A configuration document: top-level keys (minus `overlay`) and the
`overlay` sub-object. -/
structure Cfg where
  top : List (String × JVal)
  overlay : List (String × JVal)
  deriving DecidableEq

/-- A parsed user configuration file: its top-level keys other than
`overlay`, and its `overlay` object when the key is present. -/
structure UserCfg where
  top : List (String × JVal)
  overlay : Option (List (String × JVal))
  deriving DecidableEq

/-- Python `cfg.update(user)`: assign every key of `user` in order. -/
def dictUpdate {β : Type} (d u : List (String × β)) : List (String × β) :=
  u.foldl (fun d kv => dictSet d kv.1 kv.2) d

/-- The `DEFAULTS` module constant (the packaged directory, which fixes the
default `wordlist_dir`, is a parameter). -/
def DEFAULTS (pkgDir : String) : Cfg :=
  { top := [("languages", .strArr ["en"]),
            ("wordlist_dir", .str (pkgDir ++ "/wordlists")),
            ("user_dict_dir", .str "~/.config/numpad_t9"),
            ("punctuation", .strArr
              [".", ",", "!", "?", "-", "'", "\"", "(", ")", ":", ";", "@", "#"])],
    overlay := [("max_candidates", .num 6), ("offset_x", .num 16),
                ("offset_y", .num 24), ("opacity", .num (93 / 100))] }

/-- Python `Path(p).parent` rendered as a string (POSIX approximation,
sufficient for the paths this model handles). -/
def parentDir (p : String) : String :=
  let parts := p.splitOn "/"
  if parts.length ≤ 1 then "."
  else
    let joined := String.intercalate "/" parts.dropLast
    if joined = "" then "/" else joined

/-- The body of the `try` block on the winning candidate: strip `_`-keys,
deep-merge `overlay`, shallow-update the rest, then resolve a relative
`wordlist_dir` against the candidate's directory. -/
def mergeConfig (dflt : Cfg) (candidateParent : String) (user : UserCfg) :
    Cfg :=
  let utop := user.top.filter (fun kv => ¬ startsWithChar kv.1 '_')
  let overlay :=
    match user.overlay with
    | some o => dictUpdate dflt.overlay o
    | none => dflt.overlay
  let top := dictUpdate dflt.top utop
  let top :=
    match top.lookup "wordlist_dir" with
    | some (.str s) =>
      if startsWithChar s '/' then top
      else dictSet top "wordlist_dir" (.str (candidateParent ++ "/" ++ s))
    | _ => top
  { top := top, overlay := overlay }

/-- The state of one candidate path on disk: missing, existing but failing
`json.load`, or existing and parsing to a document. -/
inductive FileState
  | absent
  | unparseable
  | parsed (u : UserCfg)
  deriving DecidableEq

/-- `candidate.exists()`. -/
def FileState.found : FileState → Bool
  | .absent => false
  | _ => true

/-- Python truthiness of the optional `path` argument and of the
environment value: `None` and the empty string contribute no candidate. -/
def truthyList (o : Option String) : List String :=
  match o with
  | some s => if s = "" then [] else [s]
  | none => []

/-- The candidate list of `load_config`, in resolution order. -/
def candidatePaths (path env : Option String) (cwd pkgDir : String) :
    List String :=
  truthyList path ++ truthyList env ++
    [cwd ++ "/config.json", pkgDir ++ "/config.json"]

/-- `load_config`: walk the candidates, stop at the first existing file;
merge it when it parses, keep the defaults when it does not (warning
dropped); defaults when nothing exists. -/
def load_config (fs : String → FileState) (path env : Option String)
    (cwd pkgDir : String) : Cfg :=
  let dflt := DEFAULTS pkgDir
  match (candidatePaths path env cwd pkgDir).find? (fun c => (fs c).found) with
  | none => dflt
  | some c =>
    match fs c with
    | .parsed u => mergeConfig dflt (parentDir c) u
    | _ => dflt

end Config

/-! ### Concrete states and claim-side maps used by the proofs -/

/-- A concrete engine state used by the C2 witness: the bucket for
`"4669"` holds three words and `"hone"` has personal frequency 2. -/
def C2E : Engine.T9Engine :=
  { sequence := ['4', '6', '6'], candidates := [], candidate_index := 0,
    confirmed_words := [],
    lookup := [("4669", ["home", "gone", "hone"])],
    user_dicts := [("en", [("hone", 2)])],
    languages := ["en"] }

/-- A concrete engine state used by the C8 witness. -/
def C8E : Engine.T9Engine :=
  { sequence := [], candidates := [], candidate_index := 0,
    confirmed_words := [], lookup := [], user_dicts := [],
    languages := ["en"] }

/-- Concrete controller state for C3: composing (`sequence = ['8']`) with
confirmed-word history `["cat"]`. -/
def C3E : Engine.T9Engine :=
  { sequence := ['8'], candidates := [], candidate_index := 0,
    confirmed_words := ["cat"], lookup := [], user_dicts := [],
    languages := ["en"] }

/-- Controller state around `C3E`. -/
def C3S : App.AppState :=
  { engine := C3E, punct_index := 0, punct_list := [], output := [] }

/-- Engine state for the C3 witness: idle, history `["cat", "dog"]`. -/
def C3WE : Engine.T9Engine :=
  { sequence := [], candidates := [], candidate_index := 0,
    confirmed_words := ["cat", "dog"], lookup := [], user_dicts := [],
    languages := ["en"] }

/-- Controller state for the C3 witness. -/
def C3WS : App.AppState :=
  { engine := C3WE, punct_index := 0, punct_list := [], output := [] }

/-- The virtual-key table exactly as the claim states it
(VK 96–105 → digits, 106 backspace, 107 next, 109 prev,
110 punct-confirm, 111 delete-word, 13 confirm). -/
def claimedVkChain (v : Int) : Option String :=
  if v = 96 then some "0"
  else if v = 97 then some "1"
  else if v = 98 then some "2"
  else if v = 99 then some "3"
  else if v = 100 then some "4"
  else if v = 101 then some "5"
  else if v = 102 then some "6"
  else if v = 103 then some "7"
  else if v = 104 then some "8"
  else if v = 105 then some "9"
  else if v = 106 then some "backspace"
  else if v = 107 then some "next"
  else if v = 109 then some "prev"
  else if v = 110 then some "punct_confirm"
  else if v = 111 then some "delete_word"
  else if v = 13 then some "confirm"
  else none

/-- The key-to-action map exactly as the claim states it: the VK table,
`Esc → cancel`, and nothing else. -/
def claimedAction : App.PKey → Option String
  | .keyCode (some v) => claimedVkChain v
  | .named .esc => some "cancel"
  | _ => none

/-- The key-to-action map of the amended claim: the VK table plus the
Num-Lock-OFF named-key fallback (insert/end/arrows/home/page keys →
digits, delete → punct-confirm, enter → confirm); Num-Lock itself and
every other key produce nothing. -/
def amendedAction : App.PKey → Option String
  | .keyCode (some v) => claimedVkChain v
  | .keyCode none => none
  | .named .num_lock => none
  | .named .insert => some "0"
  | .named .endK => some "1"
  | .named .down => some "2"
  | .named .page_down => some "3"
  | .named .left => some "4"
  | .named .right => some "6"
  | .named .homeK => some "7"
  | .named .up => some "8"
  | .named .page_up => some "9"
  | .named .delete => some "punct_confirm"
  | .named .esc => some "cancel"
  | .named .enter => some "confirm"
  | .named (.other _) => none

/-- A file system for the C5 witness: the explicit path exists but fails
to parse, the environment path exists and parses; everything else is
absent. -/
def C5fs : String → Config.FileState := fun c =>
  if c = "/explicit.json" then .unparseable
  else if c = "/env.json" then
    .parsed { top := [("languages", .strArr ["sv"])], overlay := none }
  else .absent

/-! ## Helper lemmas -/

theorem lookup_isSome_iff_mem_keys {α β : Type} [BEq α] [LawfulBEq α] :
    ∀ (l : List (α × β)) (a : α),
      (l.lookup a).isSome = true ↔ a ∈ l.map Prod.fst
  | [], a => by simp [List.lookup]
  | (k, v) :: t, a => by
    simp only [List.lookup, List.map_cons, List.mem_cons]
    cases h : a == k with
    | true =>
      simp only [Option.isSome_some, true_iff]
      exact Or.inl (eq_of_beq h)
    | false =>
      rw [lookup_isSome_iff_mem_keys t a]
      have : ¬ a = k := fun he => by simp [he] at h
      simp [this]

theorem digitsOfChars_all_some :
    ∀ cs : List Char, (∀ c ∈ cs, (Engine.charDigit c).isSome) →
      Engine.digitsOfChars cs =
        some (cs.map (fun c => (Engine.charDigit c).getD '?'))
  | [], _ => rfl
  | c :: cs, h => by
    have hc := h c (List.mem_cons_self c cs)
    obtain ⟨d, hd⟩ := Option.isSome_iff_exists.mp hc
    have ht := digitsOfChars_all_some cs (fun x hx => h x (List.mem_cons_of_mem c hx))
    simp [Engine.digitsOfChars, hd, ht]

theorem digitsOfChars_none :
    ∀ cs : List Char, (∃ c ∈ cs, Engine.charDigit c = none) →
      Engine.digitsOfChars cs = none
  | [], h => by
    obtain ⟨x, hx, _⟩ := h
    exact absurd hx (List.not_mem_nil x)
  | c :: cs, h => by
    obtain ⟨x, hx, hnone⟩ := h
    rcases List.mem_cons.mp hx with rfl | hx'
    · simp [Engine.digitsOfChars, hnone]
    · cases hd : Engine.charDigit c with
      | none => simp [Engine.digitsOfChars, hd]
      | some d => simp [Engine.digitsOfChars, hd,
          digitsOfChars_none cs ⟨x, hx', hnone⟩]

theorem digitsOfChars_some_length {cs ds : List Char}
    (h : Engine.digitsOfChars cs = some ds) : ds.length = cs.length := by
  induction cs generalizing ds with
  | nil => simp [Engine.digitsOfChars] at h; simp [← h]
  | cons c t ih =>
    cases hd : Engine.charDigit c with
    | none => simp [Engine.digitsOfChars, hd] at h
    | some d =>
      simp only [Engine.digitsOfChars, hd] at h
      cases ht : Engine.digitsOfChars t with
      | none => rw [ht] at h; simp at h
      | some ds' =>
        rw [ht] at h
        simp only [Option.map] at h
        rw [Option.some_inj] at h
        simp [← h, ih ht]

/-- Every key of the combined table is already lowercase: `pyLowerChar`
fixes it. -/
theorem mapped_char_lower_fixed :
    ∀ c : Char, (Engine.charDigit c).isSome → pyLowerChar c = c := by
  intro c hc
  have hmem : c ∈ Engine.CHAR_TO_DIGIT.map Prod.fst :=
    (lookup_isSome_iff_mem_keys _ c).mp hc
  have hall : ∀ x ∈ Engine.CHAR_TO_DIGIT.map Prod.fst, pyLowerChar x = x := by decide
  exact hall c hmem

/-! ## Claim theorems -/

/-- C1: for every word composed solely of characters of the engine's
combined character-to-digit table, `word_to_digits` maps each character to
its digit, reproducibly from the literal tables; `word_to_digits "home"`
is `"4669"`; and a word whose lowercasing contains a character with no
mapping yields the unmappable result `""`. -/
theorem C1_wordToDigits_table :
    (∀ w : String, (∀ c ∈ w.toList, (Engine.charDigit c).isSome) →
        Engine.word_to_digits w =
          String.mk (w.toList.map (fun c => (Engine.charDigit c).getD '?'))) ∧
    Engine.word_to_digits "home" = "4669" ∧
    (∀ w : String, (∃ c ∈ (pyLower w).toList, Engine.charDigit c = none) →
        Engine.word_to_digits w = "") := by
  refine ⟨fun w h => ?_, by decide, fun w h => ?_⟩
  · have hlow : pyLower w = w := by
      have : w.toList.map pyLowerChar = w.toList := by
        rw [List.map_congr_left (fun c hc => mapped_char_lower_fixed c (h c hc))]
        exact List.map_id w.toList
      unfold pyLower
      rw [this]
      exact String.ext rfl
    unfold Engine.word_to_digits
    rw [hlow, digitsOfChars_all_some w.toList h]
  · unfold Engine.word_to_digits
    rw [digitsOfChars_none _ h]

/-- Witness for C1 at concrete words. -/
theorem C1_wordToDigits_table_witness :
    Engine.word_to_digits "home" =
        String.mk ("home".toList.map (fun c => (Engine.charDigit c).getD '?')) ∧
    Engine.word_to_digits "ho2me" = "" :=
  ⟨C1_wordToDigits_table.1 "home" (by decide),
   C1_wordToDigits_table.2.2 "ho2me" (by decide)⟩

/-- C9: the import utility's letter groups are assigned to different
digits than the engine's, yet the valid-character domains coincide, so for
every non-empty word `is_mappable` agrees with
`word_to_digits ≠ unmappable`. -/
theorem C9_mappable_domains_agree :
    AddW.T9_MAP ≠ Engine.T9_MAP ∧
    (∀ c : Char, c ∈ AddW.VALID_CHARS ↔ (Engine.charDigit c).isSome) ∧
    (∀ w : String, w ≠ "" →
      (AddW.is_mappable w = true ↔ Engine.word_to_digits w ≠ "")) := by
  have hdom : ∀ c : Char, c ∈ AddW.VALID_CHARS ↔ (Engine.charDigit c).isSome := by
    have h1 : ∀ x ∈ AddW.VALID_CHARS, x ∈ Engine.CHAR_TO_DIGIT.map Prod.fst := by
      decide
    have h2 : ∀ x ∈ Engine.CHAR_TO_DIGIT.map Prod.fst, x ∈ AddW.VALID_CHARS := by
      decide
    intro c
    constructor
    · exact fun h => (lookup_isSome_iff_mem_keys _ c).mpr (h1 c h)
    · exact fun h => h2 c ((lookup_isSome_iff_mem_keys _ c).mp h)
  refine ⟨by decide, hdom, fun w hw => ?_⟩
  have hne : (pyLower w).toList ≠ [] := by
    intro h0
    apply hw
    have h1 : w.toList.map pyLowerChar = [] := by
      simpa [pyLower, String.toList] using h0
    exact String.ext (List.map_eq_nil_iff.mp h1)
  have hmap : AddW.is_mappable w = true ↔
      ∀ c ∈ (pyLower w).toList, (Engine.charDigit c).isSome := by
    unfold AddW.is_mappable
    rw [List.all_eq_true]
    constructor
    · intro h c hc
      exact (hdom c).mp (by simpa using h c hc)
    · intro h c hc
      simpa using (hdom c).mpr (h c hc)
  rw [hmap]
  constructor
  · intro h
    have := digitsOfChars_all_some _ h
    unfold Engine.word_to_digits
    rw [this]
    intro hcontra
    have : ((pyLower w).toList.map (fun c => (Engine.charDigit c).getD '?')) = [] := by
      simpa [String.toList] using congrArg String.toList hcontra
    exact hne (List.map_eq_nil_iff.mp this)
  · intro h
    by_contra hc
    push_neg at hc
    obtain ⟨c, hcmem, hcnone⟩ := hc
    apply h
    unfold Engine.word_to_digits
    rw [digitsOfChars_none _ ⟨c, hcmem, Option.not_isSome_iff_eq_none.mp hcnone⟩]

/-- Witness for C9 at a concrete word. -/
theorem C9_mappable_domains_agree_witness :
    Engine.word_to_digits "cat" ≠ "" :=
  (C9_mappable_domains_agree.2.2 "cat" (by decide)).mp (by decide)

/-- In a `Pairwise r` list, an element not `r`-reachable from another
comes strictly earlier. -/
theorem pairwise_indexOf_lt {α : Type} [DecidableEq α] {l : List α}
    {r : α → α → Prop} (hp : l.Pairwise r) {a b : α}
    (ha : a ∈ l) (hb : b ∈ l) (hnr : ¬ r b a) (hne : a ≠ b) :
    l.indexOf a < l.indexOf b := by
  have hia := List.indexOf_lt_length.mpr ha
  have hib := List.indexOf_lt_length.mpr hb
  rcases Nat.lt_trichotomy (l.indexOf a) (l.indexOf b) with h | h | h
  · exact h
  · exfalso
    apply hne
    have h1 : l.get ⟨l.indexOf a, hia⟩ = a := List.indexOf_get hia
    have h2 : l.get ⟨l.indexOf b, hib⟩ = b := List.indexOf_get hib
    rw [← h1, ← h2]
    exact congrArg l.get (Fin.ext h)
  · exfalso
    apply hnr
    have hr := List.pairwise_iff_get.mp hp ⟨l.indexOf b, hib⟩ ⟨l.indexOf a, hia⟩ h
    rwa [List.indexOf_get hib, List.indexOf_get hia] at hr

/-- C2: `push_digit` appends the digit, recomputes the candidates as the
index bucket of the joined digit string sorted by
(negated total personal frequency, then word ascending), and resets the
candidate cursor; consequently any strictly-more-frequent candidate is
placed before every less-frequent one. -/
theorem C2_pushDigit_ranking (e : Engine.T9Engine) (d : Char) :
    (Engine.push_digit e d).sequence = e.sequence ++ [d] ∧
    (Engine.push_digit e d).candidate_index = 0 ∧
    (Engine.push_digit e d).candidates.Perm
      (dictGetD e.lookup (String.mk (e.sequence ++ [d])) []) ∧
    (Engine.push_digit e d).candidates.Pairwise (fun a b =>
      Engine._user_freq e b < Engine._user_freq e a ∨
        (Engine._user_freq e a = Engine._user_freq e b ∧ pyLe a b)) ∧
    (∀ a b, a ∈ (Engine.push_digit e d).candidates →
      b ∈ (Engine.push_digit e d).candidates →
      Engine._user_freq e b < Engine._user_freq e a →
      (Engine.push_digit e d).candidates.indexOf a <
        (Engine.push_digit e d).candidates.indexOf b) := by
  refine ⟨rfl, rfl, ?_, ?_, ?_⟩
  · exact List.perm_insertionSort _ _
  · exact List.sorted_insertionSort
      (Engine.candLe (Engine._user_freq { e with sequence := e.sequence ++ [d] })) _
  · intro a b ha hb hfreq
    refine pairwise_indexOf_lt (List.sorted_insertionSort
      (Engine.candLe (Engine._user_freq { e with sequence := e.sequence ++ [d] })) _)
      ha hb ?_ ?_
    · intro hr
      rcases hr with h1 | ⟨h1, _⟩
      · exact absurd (h1.trans hfreq) (lt_irrefl _)
      · exact absurd h1 (Nat.ne_of_gt hfreq).symm
    · intro he
      rw [he] at hfreq
      exact lt_irrefl _ hfreq

/-- Witness for C2: the learned word `"hone"` (frequency 2) is placed
before the never-learned `"gone"` after pushing the final digit. -/
theorem C2_pushDigit_ranking_witness :
    (Engine.push_digit C2E '9').candidates.indexOf "hone" <
      (Engine.push_digit C2E '9').candidates.indexOf "gone" :=
  (C2_pushDigit_ranking C2E '9').2.2.2.2 "hone" "gone"
    (by decide) (by decide) (by decide)

/-- One engine operation preserves the candidate-index invariant. -/
theorem idxInv_applyOp (e : Engine.T9Engine) (op : Engine.EngineOp)
    (h : Engine.idxInv e) : Engine.idxInv (Engine.applyOp e op) := by
  cases op with
  | push d =>
    intro hne
    exact List.length_pos.mpr hne
  | pop =>
    simp only [Engine.applyOp, Engine.pop_digit]
    split
    · exact h
    · intro hne
      exact List.length_pos.mpr hne
  | resetE =>
    intro hne
    exact absurd rfl hne
  | next =>
    simp only [Engine.applyOp, Engine.cycle_next]
    split
    · exact h
    · intro _
      exact Nat.mod_lt _ (List.length_pos.mpr (by assumption))
  | prev =>
    simp only [Engine.applyOp, Engine.cycle_prev]
    split
    · exact h
    · intro _
      exact Nat.mod_lt _ (List.length_pos.mpr (by assumption))
  | confirmE =>
    intro hne
    exact absurd rfl hne
  | learn w l =>
    simp only [Engine.applyOp, Engine.learn_word]
    split
    · exact h
    · intro hne
      exact h hne
  | bump w =>
    simp only [Engine.applyOp, Engine.bump_word, Engine.learn_word]
    split
    · exact h
    · intro hne
      exact h hne

/-- Any operation sequence preserves the candidate-index invariant. -/
theorem idxInv_applyOps (e : Engine.T9Engine) (ops : List Engine.EngineOp)
    (h : Engine.idxInv e) : Engine.idxInv (Engine.applyOps e ops) := by
  induction ops generalizing e with
  | nil => exact h
  | cons op t ih => exact ih _ (idxInv_applyOp e op h)

/-- C7: a freshly constructed engine satisfies the candidate-index
invariant, every sequence of engine operations preserves it, cycling is a
no-op without candidates, and with three candidates two `next` and one
`prev` leave the cursor at `(0+1+1-1) mod 3 = 1`. -/
theorem C7_candidateIndex_invariant :
    (∀ lookup dicts langs,
      Engine.idxInv (Engine.initEngine lookup dicts langs)) ∧
    (∀ (e : Engine.T9Engine) (ops : List Engine.EngineOp),
      Engine.idxInv e → Engine.idxInv (Engine.applyOps e ops)) ∧
    (∀ e : Engine.T9Engine, e.candidates = [] →
      Engine.cycle_next e = e ∧ Engine.cycle_prev e = e) ∧
    (∀ e : Engine.T9Engine, e.candidates.length = 3 → e.candidate_index = 0 →
      (Engine.applyOps e [.next, .next, .prev]).candidate_index = 1) := by
  refine ⟨?_, idxInv_applyOps, ?_, ?_⟩
  · intro lookup dicts langs hne
    exact absurd rfl hne
  · intro e hnil
    constructor
    · simp [Engine.cycle_next, hnil]
    · simp [Engine.cycle_prev, hnil]
  · intro e h3 h0
    have hne : ¬ (e.candidates = []) := by
      intro h'
      rw [h'] at h3
      simp at h3
    simp [Engine.applyOps, Engine.applyOp, Engine.cycle_next, Engine.cycle_prev,
      hne, h3, h0]

/-- Witness for C7 at a concrete engine state with three candidates. -/
theorem C7_candidateIndex_invariant_witness :
    Engine.idxInv (Engine.applyOps
      (Engine.initEngine [("8", ["a", "b", "c"])] [] ["en"])
      [.push '8', .next, .next, .prev]) ∧
    (Engine.applyOps
      { Engine.initEngine [("8", ["a", "b", "c"])] [] ["en"] with
        candidates := ["a", "b", "c"] }
      [.next, .next, .prev]).candidate_index = 1 :=
  ⟨C7_candidateIndex_invariant.2.1 _ _ (fun hne => absurd rfl hne),
   C7_candidateIndex_invariant.2.2.2 _ (by decide) (by decide)⟩

/-! ## Dictionary lemmas -/

theorem lookup_cons_eq {β : Type} (a : String) (q : String × β)
    (es : List (String × β)) :
    (q :: es).lookup a = if a = q.1 then some q.2 else es.lookup a := by
  rw [List.lookup_cons]
  by_cases h : a = q.1
  · rw [if_pos h, show (a == q.1) = true from beq_iff_eq.mpr h]
  · rw [if_neg h, show (a == q.1) = false from beq_eq_false_iff_ne.mpr h]

theorem any_eq_lookup_isSome {β : Type} (d : List (String × β)) (k : String) :
    d.any (fun p => p.1 = k) = (d.lookup k).isSome := by
  induction d with
  | nil => rfl
  | cons p t ih =>
    rw [List.any_cons, lookup_cons_eq]
    by_cases h : p.1 = k
    · simp [h]
    · have h' : ¬ k = p.1 := fun he => h he.symm
      simp [h, h', ih]

theorem lookup_mapSet {β : Type} (k : String) (v : β) :
    ∀ (d : List (String × β)) (k' : String),
      (d.map (fun p => if p.1 = k then (k, v) else p)).lookup k'
        = if k' = k then ((d.lookup k).map (fun _ => v)) else d.lookup k'
  | [], k' => by by_cases h : k' = k <;> simp [h]
  | p :: t, k' => by
    by_cases hp : p.1 = k <;> by_cases hk : k' = k
    · subst hk
      simp [lookup_cons_eq, hp]
    · have h1 : ¬ k' = p.1 := fun he => hk (he.trans hp)
      simp [lookup_cons_eq, hp, hk, h1, lookup_mapSet k v t k']
    · subst hk
      have h3 : ¬ k' = p.1 := fun he => hp he.symm
      simp [lookup_cons_eq, hp, h3, lookup_mapSet k' v t k']
    · simp [lookup_cons_eq, hp, hk, lookup_mapSet k v t k']

theorem lookup_append_single {β : Type} (k : String) (v : β) :
    ∀ (d : List (String × β)) (k' : String),
      (d ++ [(k, v)]).lookup k' =
        (match d.lookup k' with
         | some w => some w
         | none => if k' = k then some v else none)
  | [], k' => by
    rw [List.nil_append, List.lookup_nil, lookup_cons_eq, List.lookup_nil]
  | p :: t, k' => by
    rw [List.cons_append, lookup_cons_eq, lookup_cons_eq]
    by_cases h : k' = p.1
    · rw [if_pos h, if_pos h]
    · rw [if_neg h, if_neg h, lookup_append_single k v t k']

theorem lookup_dictSet {β : Type} (d : List (String × β)) (k : String) (v : β)
    (k' : String) :
    (dictSet d k v).lookup k' = if k' = k then some v else d.lookup k' := by
  unfold dictSet
  by_cases hany : d.any (fun p => p.1 = k) = true
  · rw [if_pos hany, lookup_mapSet]
    by_cases hk : k' = k
    · rw [if_pos hk, if_pos hk]
      have hs : (d.lookup k).isSome := by
        rw [← any_eq_lookup_isSome]
        exact hany
      obtain ⟨w, hw⟩ := Option.isSome_iff_exists.mp hs
      rw [hw]
      rfl
    · rw [if_neg hk, if_neg hk]
  · rw [if_neg (by simpa using hany), lookup_append_single]
    have hnone : d.lookup k = none := by
      rw [← Option.not_isSome_iff_eq_none]
      intro hs
      exact hany (by rw [any_eq_lookup_isSome, hs])
    by_cases hk : k' = k
    · subst hk
      rw [hnone, if_pos rfl]
    · cases hl : d.lookup k' <;> simp [hk, hl]

theorem dictGetD_dictSet_self {β : Type} (d : List (String × β)) (k : String)
    (v v0 : β) : dictGetD (dictSet d k v) k v0 = v := by
  unfold dictGetD
  rw [lookup_dictSet, if_pos rfl]
  rfl

theorem dictGetD_dictSet_ne {β : Type} (d : List (String × β)) {k k' : String}
    (v v0 : β) (h : k' ≠ k) :
    dictGetD (dictSet d k v) k' v0 = dictGetD d k' v0 := by
  unfold dictGetD
  rw [lookup_dictSet, if_neg h]

/-- `learn_word` can only increase a personal count. -/
theorem userCount_learn_le (e : Engine.T9Engine) (w0 : String)
    (l? : Option String) (lang w : String) :
    Engine.userCount e lang w ≤
      Engine.userCount (Engine.learn_word e w0 l?) lang w := by
  simp only [Engine.learn_word]
  split
  · exact le_refl _
  · unfold Engine.userCount
    by_cases hl : lang = l?.getD (Engine.defaultLang e)
    · rw [hl, dictGetD_dictSet_self]
      by_cases hw : w = pyLower (pyStrip w0)
      · rw [hw, dictGetD_dictSet_self]
        exact Nat.le_succ _
      · rw [dictGetD_dictSet_ne _ _ _ hw]
    · rw [dictGetD_dictSet_ne _ _ _ hl]

/-- One engine operation never decreases a personal count. -/
theorem userCount_applyOp_le (e : Engine.T9Engine) (op : Engine.EngineOp)
    (lang w : String) :
    Engine.userCount e lang w ≤ Engine.userCount (Engine.applyOp e op) lang w := by
  cases op with
  | push d => exact le_refl _
  | pop =>
    simp only [Engine.applyOp, Engine.pop_digit]
    split
    · exact le_refl _
    · exact le_refl _
  | resetE => exact le_refl _
  | next =>
    simp only [Engine.applyOp, Engine.cycle_next]
    split
    · exact le_refl _
    · exact le_refl _
  | prev =>
    simp only [Engine.applyOp, Engine.cycle_prev]
    split
    · exact le_refl _
    · exact le_refl _
  | confirmE => exact userCount_learn_le e (Engine.current_word e) none lang w
  | learn w0 l? => exact userCount_learn_le e w0 l? lang w
  | bump w0 => exact userCount_learn_le e w0 none lang w

/-- C8: for every non-blank word, `learn_word` increments the chosen
language's personal count for the normalized word (creating the entry at
1); counts are monotonically non-decreasing under every engine operation;
and `bump_word` is `learn_word` with the first configured language. -/
theorem C8_learn_increment_monotone :
    (∀ (e : Engine.T9Engine) (w lang : String),
      pyLower (pyStrip w) ≠ "" →
      Engine.userCount (Engine.learn_word e w (some lang)) lang
          (pyLower (pyStrip w))
        = Engine.userCount e lang (pyLower (pyStrip w)) + 1) ∧
    (∀ (e : Engine.T9Engine) (lang : String),
      Engine.userCount e lang "test" = 0 →
      Engine.userCount (Engine.learn_word e "test" (some lang)) lang "test" = 1 ∧
      Engine.userCount
        (Engine.learn_word (Engine.learn_word e "test" (some lang)) "test"
          (some lang)) lang "test" = 2) ∧
    (∀ (e : Engine.T9Engine) (ops : List Engine.EngineOp) (lang w : String),
      Engine.userCount e lang w ≤
        Engine.userCount (Engine.applyOps e ops) lang w) ∧
    (∀ (e : Engine.T9Engine) (w l0 : String) (rest : List String),
      e.languages = l0 :: rest →
      Engine.bump_word e w = Engine.learn_word e w (some l0)) := by
  have hinc : ∀ (e : Engine.T9Engine) (w lang : String),
      pyLower (pyStrip w) ≠ "" →
      Engine.userCount (Engine.learn_word e w (some lang)) lang
          (pyLower (pyStrip w))
        = Engine.userCount e lang (pyLower (pyStrip w)) + 1 := by
    intro e w lang hne
    simp only [Engine.learn_word]
    rw [if_neg hne]
    unfold Engine.userCount
    simp only [Option.getD_some]
    rw [dictGetD_dictSet_self, dictGetD_dictSet_self]
  refine ⟨hinc, ?_, ?_, ?_⟩
  · intro e lang h0
    have hne : pyLower (pyStrip "test") ≠ "" := by decide
    have hstr : pyLower (pyStrip "test") = "test" := by decide
    constructor
    · have h1 := hinc e "test" lang hne
      rw [hstr] at h1
      rw [h1, h0]
    · have h1 := hinc e "test" lang hne
      have h2 := hinc (Engine.learn_word e "test" (some lang)) "test" lang hne
      rw [hstr] at h1 h2
      rw [h2, h1, h0]
  · intro e ops
    induction ops generalizing e with
    | nil => intro lang w; exact le_refl _
    | cons op t ih =>
      intro lang w
      exact le_trans (userCount_applyOp_le e op lang w) (ih _ lang w)
  · intro e w l0 rest h
    simp only [Engine.bump_word, Engine.learn_word, Engine.defaultLang, h,
      Option.getD, List.headD]

/-- Witness for C8: learning `"test"` twice in a fresh engine yields
counts 1 and then 2, and `bump_word` equals `learn_word` with the first
configured language. -/
theorem C8_learn_increment_monotone_witness :
    (Engine.userCount (Engine.learn_word C8E "test" (some "en")) "en" "test" = 1 ∧
      Engine.userCount
        (Engine.learn_word (Engine.learn_word C8E "test" (some "en")) "test"
          (some "en")) "en" "test" = 2) ∧
    Engine.userCount C8E "en" "w" ≤
      Engine.userCount (Engine.applyOps C8E [.learn "test" none]) "en" "w" ∧
    Engine.bump_word C8E "hello" = Engine.learn_word C8E "hello" (some "en") :=
  ⟨C8_learn_increment_monotone.2.1 C8E "en" (by decide),
   C8_learn_increment_monotone.2.2.1 C8E [.learn "test" none] "en" "w",
   C8_learn_increment_monotone.2.2.2 C8E "hello" "en" [] rfl⟩

/-- C10: `learn_word` on a word that strips to empty is a complete no-op,
and `confirm` on an idle engine with no candidates returns the empty
string and appends it to the confirmed-word history while leaving the
personal dictionaries and the lookup index unchanged. -/
theorem C10_blank_learn_noop :
    (∀ (e : Engine.T9Engine) (w : String) (l? : Option String),
      pyStrip w = "" → Engine.learn_word e w l? = e) ∧
    (∀ e : Engine.T9Engine, e.sequence = [] → e.candidates = [] →
      (Engine.confirm e).1 = "" ∧
      (Engine.confirm e).2.confirmed_words = e.confirmed_words ++ [""] ∧
      (Engine.confirm e).2.user_dicts = e.user_dicts ∧
      (Engine.confirm e).2.lookup = e.lookup) := by
  have hlearn : ∀ (e : Engine.T9Engine) (w : String) (l? : Option String),
      pyStrip w = "" → Engine.learn_word e w l? = e := by
    intro e w l? h
    have hempty : pyLower (pyStrip w) = "" := by
      rw [h]
      rfl
    simp only [Engine.learn_word]
    rw [if_pos hempty]
  refine ⟨hlearn, fun e hseq hcand => ?_⟩
  have hword : Engine.current_word e = "" := by
    unfold Engine.current_word
    rw [if_neg (by simpa using hcand), hseq]
    rfl
  have hbump : Engine.bump_word e (Engine.current_word e) = e := by
    rw [hword]
    exact hlearn e "" none rfl
  refine ⟨hword, ?_, ?_, ?_⟩
  · show (Engine.bump_word e (Engine.current_word e)).confirmed_words
        ++ [Engine.current_word e] = e.confirmed_words ++ [""]
    rw [hbump, hword]
  · show (Engine.bump_word e (Engine.current_word e)).user_dicts = e.user_dicts
    rw [hbump]
  · show (Engine.bump_word e (Engine.current_word e)).lookup = e.lookup
    rw [hbump]

/-- Witness for C10 at a concrete engine state. -/
theorem C10_blank_learn_noop_witness :
    Engine.learn_word C8E "   " none = C8E ∧
    (Engine.confirm C8E).1 = "" ∧
    (Engine.confirm C8E).2.confirmed_words = [""] :=
  ⟨C10_blank_learn_noop.1 C8E "   " none (by decide),
   (C10_blank_learn_noop.2 C8E rfl rfl).1,
   (C10_blank_learn_noop.2 C8E rfl rfl).2.1⟩

/-- The delete-word branch of `T9App._handle`, isolated. -/
theorem handle_delete_word (s : App.AppState) :
    App.handle s "delete_word" =
      (if s.engine.confirmed_words ≠ [] then
        { s with
          engine := { s.engine with
            confirmed_words := s.engine.confirmed_words.dropLast },
          output := s.output ++ List.replicate
            ((s.engine.confirmed_words.getLastD "").length + 1)
            App.OutEvent.tappedBackspace }
      else if ¬ Engine.has_input s.engine then
        App.emit s App.OutEvent.tappedBackspace
      else s) := by
  simp [App.handle]

/-- C3 counterexample: in state `C3S` the engine is actively composing,
yet `delete_word` is not a no-op — it pops `"cat"` from the history and
emits 4 backspaces (the claim says it has no effect while composing). -/
theorem C3_deleteWord_cex :
    C3S.engine.sequence ≠ [] ∧
    App.handle C3S "delete_word" ≠ C3S ∧
    (App.handle C3S "delete_word").engine.confirmed_words = [] ∧
    (App.handle C3S "delete_word").output =
      List.replicate 4 App.OutEvent.tappedBackspace :=
  ⟨by decide, by decide, by decide, by decide⟩

/-- C3 amended: `delete_word` pops the most recent confirmed word and
emits its length + 1 backspaces whenever the history is non-empty —
regardless of whether a composition is active; with no history it emits a
single backspace when idle and does nothing while composing; after
confirming `"cat"` then `"dog"`, one `delete_word` emits exactly 4
backspaces and leaves only `"cat"` confirmed. -/
theorem C3_deleteWord_amended (s : App.AppState) :
    (s.engine.confirmed_words ≠ [] →
      App.handle s "delete_word" =
        { s with
          engine := { s.engine with
            confirmed_words := s.engine.confirmed_words.dropLast },
          output := s.output ++ List.replicate
            ((s.engine.confirmed_words.getLastD "").length + 1)
            App.OutEvent.tappedBackspace }) ∧
    (s.engine.confirmed_words = [] → s.engine.sequence = [] →
      App.handle s "delete_word" =
        { s with output := s.output ++ [App.OutEvent.tappedBackspace] }) ∧
    (s.engine.confirmed_words = [] → s.engine.sequence ≠ [] →
      App.handle s "delete_word" = s) ∧
    (s.engine.confirmed_words = ["cat", "dog"] →
      (App.handle s "delete_word").engine.confirmed_words = ["cat"] ∧
      (App.handle s "delete_word").output =
        s.output ++ List.replicate 4 App.OutEvent.tappedBackspace) := by
  have hmain : s.engine.confirmed_words ≠ [] →
      App.handle s "delete_word" =
        { s with
          engine := { s.engine with
            confirmed_words := s.engine.confirmed_words.dropLast },
          output := s.output ++ List.replicate
            ((s.engine.confirmed_words.getLastD "").length + 1)
            App.OutEvent.tappedBackspace } := by
    intro h
    rw [handle_delete_word, if_pos h]
  refine ⟨hmain, ?_, ?_, ?_⟩
  · intro h1 h2
    rw [handle_delete_word, if_neg (by simp [h1]),
      if_pos (by simp [Engine.has_input, h2])]
    rfl
  · intro h1 h2
    rw [handle_delete_word, if_neg (by simp [h1]),
      if_neg (by simp [Engine.has_input, h2])]
  · intro h
    have hne : s.engine.confirmed_words ≠ [] := by
      rw [h]
      simp
    constructor
    · rw [hmain hne]
      simp [h]
    · rw [hmain hne]
      simp [h]
      rfl

/-- Witness for C3 (amended) at a concrete state: history
`["cat", "dog"]`, idle composition. -/
theorem C3_deleteWord_amended_witness :
    (App.handle C3WS "delete_word").engine.confirmed_words = ["cat"] ∧
    (App.handle C3WS "delete_word").output =
      C3WS.output ++ List.replicate 4 App.OutEvent.tappedBackspace :=
  (C3_deleteWord_amended C3WS).2.2.2 rfl

theorem lookup_cons_eq_int {β : Type} (a : Int) (q : Int × β)
    (es : List (Int × β)) :
    (q :: es).lookup a = if a = q.1 then some q.2 else es.lookup a := by
  rw [List.lookup_cons]
  by_cases h : a = q.1
  · rw [if_pos h, show (a == q.1) = true from beq_iff_eq.mpr h]
  · rw [if_neg h, show (a == q.1) = false from beq_eq_false_iff_ne.mpr h]

theorem vk_lookup_eq_chain (v : Int) :
    App.vk_map.lookup v = claimedVkChain v := by
  unfold App.vk_map claimedVkChain
  simp only [lookup_cons_eq_int, List.lookup_nil]

/-- C4 counterexample: the claim says every key outside the VK table
(plus Esc) yields no action, but the code's Num-Lock-OFF fallback maps the
named `insert` key to action `"0"`. -/
theorem C4_keyToAction_cex :
    App.key_to_action (.named .insert) = some "0" ∧
    claimedAction (.named .insert) = none :=
  ⟨rfl, rfl⟩

/-- C4 amended: the key-to-action mapping is the claim's VK table plus
the named-key fallback (insert→0, end→1, down→2, page-down→3, left→4,
right→6, home→7, up→8, page-up→9, delete→punct-confirm, enter→confirm);
Num-Lock and every remaining key yield no action. -/
theorem C4_keyToAction_amended :
    ∀ k : App.PKey, App.key_to_action k = amendedAction k := by
  intro k
  cases k with
  | keyCode vk? =>
    cases vk? with
    | none => rfl
    | some v => exact vk_lookup_eq_chain v
  | named nk => cases nk <;> rfl

/-- C5: `load_config` walks explicit path → environment override → cwd
`config.json` → packaged default, stops at the first existing file even
when it fails to parse (returning the untouched defaults then), uses only
the winning file's contents, and returns the defaults when no candidate
exists. -/
theorem C5_loadConfig_resolution :
    (∀ (fs : String → Config.FileState) (path env : Option String)
        (cwd pkgDir : String),
      (∀ c ∈ Config.candidatePaths path env cwd pkgDir, fs c = .absent) →
      Config.load_config fs path env cwd pkgDir = Config.DEFAULTS pkgDir) ∧
    (∀ (fs : String → Config.FileState) (p : String) (env : Option String)
        (cwd pkgDir : String) (u : Config.UserCfg),
      p ≠ "" → fs p = .parsed u →
      Config.load_config fs (some p) env cwd pkgDir =
        Config.mergeConfig (Config.DEFAULTS pkgDir) (Config.parentDir p) u) ∧
    (∀ (fs : String → Config.FileState) (p : String) (env : Option String)
        (cwd pkgDir : String),
      p ≠ "" → fs p = .unparseable →
      Config.load_config fs (some p) env cwd pkgDir = Config.DEFAULTS pkgDir) ∧
    (∀ (fs : String → Config.FileState) (path env : Option String)
        (cwd pkgDir : String) (c : String),
      (Config.candidatePaths path env cwd pkgDir).find?
          (fun x => (fs x).found) = some c →
      fs c = .unparseable →
      Config.load_config fs path env cwd pkgDir = Config.DEFAULTS pkgDir) := by
  refine ⟨?_, ?_, ?_, ?_⟩
  · intro fs path env cwd pkg h
    have hnone : (Config.candidatePaths path env cwd pkg).find?
        (fun c => (fs c).found) = none := by
      rw [List.find?_eq_none]
      intro x hx
      simp [h x hx, Config.FileState.found]
    simp only [Config.load_config]
    rw [hnone]
  · intro fs p env cwd pkg u hp hfs
    have hpaths : Config.candidatePaths (some p) env cwd pkg
        = p :: (Config.truthyList env
            ++ [cwd ++ "/config.json", pkg ++ "/config.json"]) := by
      simp [Config.candidatePaths, Config.truthyList, hp]
    simp only [Config.load_config]
    rw [hpaths, List.find?_cons_of_pos _ (by rw [hfs]; rfl)]
    simp only [hfs]
  · intro fs p env cwd pkg hp hfs
    have hpaths : Config.candidatePaths (some p) env cwd pkg
        = p :: (Config.truthyList env
            ++ [cwd ++ "/config.json", pkg ++ "/config.json"]) := by
      simp [Config.candidatePaths, Config.truthyList, hp]
    simp only [Config.load_config]
    rw [hpaths, List.find?_cons_of_pos _ (by rw [hfs]; rfl)]
    simp only [hfs]
  · intro fs path env cwd pkg c hfind hunp
    simp only [Config.load_config]
    rw [hfind]
    simp only [hunp]

/-- Witness for C5: with an unparseable explicit file and a parseable
environment file both present, the result is the untouched defaults — not
the environment file's contents. -/
theorem C5_loadConfig_resolution_witness :
    Config.load_config C5fs (some "/explicit.json") (some "/env.json")
      "/cwd" "/pkg" = Config.DEFAULTS "/pkg" :=
  C5_loadConfig_resolution.2.2.1 C5fs "/explicit.json" (some "/env.json")
    "/cwd" "/pkg" (by decide) (by decide)

/-- Membership in the `load_source` fold, generalized over the
accumulator. -/
theorem mem_load_source_aux :
    ∀ (lines acc : List String) (w : String),
      (w ∈ lines.foldl
        (fun ws line =>
          let x := pyLower (pyStrip line)
          if x = "" ∨ startsWithChar x '#' then ws
          else if AddW.is_mappable x then ws ++ [x] else ws) acc) ↔
      (w ∈ acc ∨ ∃ line ∈ lines, pyLower (pyStrip line) = w ∧ ¬ w = "" ∧
        ¬ startsWithChar w '#' = true ∧ AddW.is_mappable w = true)
  | [], acc, w => by simp
  | l :: t, acc, w => by
    rw [List.foldl_cons, mem_load_source_aux t _ w, List.exists_mem_cons_iff]
    simp only
    by_cases h1 : pyLower (pyStrip l) = "" ∨ startsWithChar (pyLower (pyStrip l)) '#' = true
    · rw [if_pos h1]
      have hP : ¬ (pyLower (pyStrip l) = w ∧ ¬ w = "" ∧
          ¬ startsWithChar w '#' = true ∧ AddW.is_mappable w = true) := by
        rintro ⟨he, hne, hns, _⟩
        rcases h1 with h1 | h1
        · exact hne (he.symm.trans h1)
        · exact hns (he ▸ h1)
      tauto
    · rw [if_neg h1]
      push_neg at h1
      by_cases h2 : AddW.is_mappable (pyLower (pyStrip l)) = true
      · rw [if_pos h2, List.mem_append, List.mem_singleton]
        have hP : (pyLower (pyStrip l) = w ∧ ¬ w = "" ∧
            ¬ startsWithChar w '#' = true ∧ AddW.is_mappable w = true) ↔
            w = pyLower (pyStrip l) := by
          constructor
          · rintro ⟨he, _, _, _⟩
            exact he.symm
          · intro he
            subst he
            exact ⟨rfl, h1.1, by simp [h1.2], h2⟩
        rw [hP]
        tauto
      · rw [if_neg h2]
        have hP : ¬ (pyLower (pyStrip l) = w ∧ ¬ w = "" ∧
            ¬ startsWithChar w '#' = true ∧ AddW.is_mappable w = true) := by
          rintro ⟨he, _, _, hm⟩
          exact h2 (by rw [he]; exact hm)
        tauto

/-- C6: the import utility lowercases and strips each source line, skips
blanks and `#`-comments, keeps exactly the mappable words; the written
word list is the duplicate-free ascending-sorted union of the existing
destination words with the new words; the destination file is the header
followed by one word per line; and the claim's concrete example produces
exactly `cat` and `dog` under the documented header. -/
theorem C6_import_merge_sorted :
    (∀ (lines : List String) (w : String),
      w ∈ AddW.load_source lines ↔
        ∃ line ∈ lines, pyLower (pyStrip line) = w ∧ ¬ w = "" ∧
          ¬ startsWithChar w '#' = true ∧ AddW.is_mappable w = true) ∧
    (∀ ex new : List String,
      List.Sorted pyLe (AddW.mergeWords ex new) ∧
      (AddW.mergeWords ex new).Nodup ∧
      (∀ w, w ∈ AddW.mergeWords ex new ↔ w ∈ ex ∨ w ∈ new)) ∧
    (∀ (lang : String) (src : List String) (dst : Option (List String))
        (ap : Bool),
      AddW.destFileLines lang src dst ap =
        AddW.headerLines lang
          (AddW.mergeWords
            (match dst, ap with
             | some d, true => AddW.existingWords d
             | _, _ => []) (AddW.load_source src)).length ++
        AddW.mergeWords
          (match dst, ap with
           | some d, true => AddW.existingWords d
           | _, _ => []) (AddW.load_source src)) ∧
    AddW.destFileLines "en" ["Cat", "cat", "dog", "", "#comment"] none true =
      AddW.headerLines "en" 2 ++ ["cat", "dog"] := by
  refine ⟨?_, ?_, fun lang src dst ap => rfl, by decide⟩
  · intro lines w
    unfold AddW.load_source
    rw [mem_load_source_aux lines [] w]
    simp
  · intro ex new
    refine ⟨List.sorted_insertionSort pyLe _, ?_, ?_⟩
    · exact (List.perm_insertionSort pyLe _).nodup_iff.mpr
        (List.nodup_dedup _)
    · intro w
      rw [AddW.mergeWords, List.mem_insertionSort, List.mem_dedup,
        List.mem_append]
